import Mathlib

/-!
Verification of the gym booking bot's schedule and eligibility logic
(`gym_booking_bot.py`).  Python strings are modelled as `List Char`
(ASCII inputs; `str.lower`/`str.strip`/`int` are modelled for the ASCII
fragment actually exercised by the program).  Fallible Python code paths
(uncaught exceptions) are modelled with `Option`.
-/

namespace GymBot

/-- Python whitespace characters recognised by `str.strip()` (ASCII fragment). -/
def isPySpace (c : Char) : Bool :=
  c = ' ' || c = '\t' || c = '\n' || c = '\x0d' || c = '\x0b' || c = '\x0c'

/-- Python `s.strip()`: drop leading and trailing whitespace. -/
def pyStrip (l : List Char) : List Char :=
  ((l.dropWhile isPySpace).reverse.dropWhile isPySpace).reverse

/-- Python `s.split(sep)` for a one-character separator: split on every
occurrence, keeping empty chunks (`"".split(sep) == [""]`). -/
def pySplitChar (sep : Char) : List Char → List (List Char)
  | [] => [[]]
  | c :: rest =>
    if c = sep then
      [] :: pySplitChar sep rest
    else
      match pySplitChar sep rest with
      | [] => [[c]]
      | r :: rs => (c :: r) :: rs

/-- Numeric value of a run of ASCII digits (most significant first). -/
def natOfDigits (l : List Char) : Nat :=
  l.foldl (fun acc c => acc * 10 + (c.toNat - 48)) 0

/-- Parse a nonempty all-ASCII-digit string to its value; `none` otherwise. -/
def digitsVal : List Char → Option Nat
  | [] => none
  | l => if l.all Char.isDigit then some (natOfDigits l) else none

/-- Python `int(s)` on the ASCII fragment used by the program: surrounding
whitespace allowed, optional single sign, then nonempty decimal digits
(no underscores in the modelled fragment); `none` models `ValueError`. -/
def pyInt (s : List Char) : Option Int :=
  match pyStrip s with
  | '-' :: rest => (digitsVal rest).map (fun n => -(n : Int))
  | '+' :: rest => (digitsVal rest).map (fun n => (n : Int))
  | l => (digitsVal l).map (fun n => (n : Int))

/-- Split a maximal leading digit run off a character list. -/
def takeDigits : List Char → List Char × List Char
  | [] => ([], [])
  | c :: rest =>
    if c.isDigit then
      let p := takeDigits rest
      (c :: p.1, p.2)
    else
      ([], c :: rest)

/-- Match of the regex `swim\((\d+)\)` anchored at the head of the list:
a literal `swim(`, one or more digits, then `)`; returns the digits' value. -/
def swimHere : List Char → Option Nat
  | 's' :: 'w' :: 'i' :: 'm' :: '(' :: rest =>
    match takeDigits rest with
    | (d :: ds, ')' :: _) => some (natOfDigits (d :: ds))
    | _ => none
  | _ => none

/-- Python `re.search(r'swim\((\d+)\)', s)`: value of the leftmost match. -/
def swimSearch : List Char → Option Nat
  | [] => none
  | c :: rest =>
    match swimHere (c :: rest) with
    | some v => some v
    | none => swimSearch rest

/-- `GymBookingBot._parse_swim_instructor`.  Returns
`(is_swim, duration, warned)` where `warned` records whether the
"Invalid swim format" message is printed. -/
def parse_swim_instructor (instructor : List Char) : Bool × Nat × Bool :=
  if ("swim".data).isPrefixOf (instructor.map Char.toLower) then
    match swimSearch (instructor.map Char.toLower) with
    | some d => if d = 15 ∨ d = 30 then (true, d, false) else (false, 0, true)
    | none => (false, 0, true)
  else
    (false, 0, false)

/-- One validated schedule row (`_parse_schedule_content`'s dict entries). -/
structure ScheduleEntry where
  user : List Char
  instructor : List Char
  day_of_week : List Char
  time : List Char
  row_num : Nat
deriving DecidableEq, Repr

/-- Outcome of processing one CSV data row: either skipped with the logged
reason, or accepted (with `warned` recording the quarter-hour warning). -/
inductive RowResult where
  | skipped (reason : List Char)
  | ok (entry : ScheduleEntry) (warned : Bool)
deriving DecidableEq, Repr

/-- Index of the last occurrence of `key` in the header field list
(`dict(zip(fieldnames, row))` lets the last duplicate win). -/
def lastIdx (key : List Char) : List (List Char) → Option Nat
  | [] => none
  | h :: t =>
    match lastIdx key t with
    | some j => some (j + 1)
    | none => if h = key then some 0 else none

/-- `row.get(key, '')` on the dict built by `csv.DictReader` from a header
and a field list: a key absent from the header gives the default `''`
(`some []`); a header key beyond the row's length gets `restval = None`,
modelled as `none` (the later `.strip()` then raises `AttributeError`). -/
def dictGet (header fields : List (List Char)) (key : List Char) : Option (List Char) :=
  match lastIdx key header with
  | none => some []
  | some j => fields[j]?

/-- The `valid_days` list of `_parse_schedule_content`. -/
def valid_days : List (List Char) :=
  ["monday", "tuesday", "wednesday", "thursday", "friday", "saturday", "sunday"].map String.data

/-- The valid users of `_parse_schedule_content`. -/
def valid_users : List (List Char) :=
  ["peter", "adrienne", "lucy"].map String.data

/-- The time validation of `_parse_schedule_content`: split on `:`, exactly
two parts, both `int`-parseable, hour in 0..23 and minute in 0..59;
`none` models the raised-and-caught `ValueError`. -/
def pyTimeHM (time : List Char) : Option (Int × Int) :=
  match pySplitChar ':' time with
  | [p0, p1] =>
    match pyInt p0, pyInt p1 with
    | some h, some m =>
      if 0 ≤ h ∧ h ≤ 23 ∧ 0 ≤ m ∧ m ≤ 59 then some (h, m) else none
    | _, _ => none
  | _ => none

/-- The body of `_parse_schedule_content`'s per-row loop: field extraction,
cleanup and validation for the row numbered `rowNum`. -/
def processRow (header : List (List Char)) (rowNum : Nat) (line : List Char) : RowResult :=
  let fields := pySplitChar ',' line
  match dictGet header fields ("user".data), dictGet header fields ("instructor".data),
        dictGet header fields ("day_of_week".data), dictGet header fields ("time".data) with
  | some u0, some i0, some d0, some t0 =>
    let user := (pyStrip u0).map Char.toLower
    let instructor := pyStrip i0
    let day := (pyStrip d0).map Char.toLower
    let time := pyStrip t0
    if user = [] ∨ instructor = [] ∨ day = [] ∨ time = [] then
      .skipped ("incomplete row".data)
    else if ¬ user ∈ valid_users then
      .skipped ("invalid user".data)
    else if ¬ day ∈ valid_days then
      .skipped ("invalid day_of_week".data)
    else
      match pyTimeHM time with
      | none => .skipped ("invalid time format".data)
      | some hm =>
        .ok ⟨user, instructor, day, time, rowNum⟩
          (decide (¬ (hm.2 = 0 ∨ hm.2 = 15 ∨ hm.2 = 30 ∨ hm.2 = 45)))
  | _, _, _, _ => .skipped ("error processing row".data)

/-- The `for row_num, row in enumerate(csv_reader, start=2)` loop: process
the data rows in order, numbering them from `rowNum`, keeping accepted
entries. -/
def processRows (header : List (List Char)) (rowNum : Nat) : List (List Char) → List ScheduleEntry
  | [] => []
  | line :: rest =>
    match processRow header rowNum line with
    | .ok e _ => e :: processRows header (rowNum + 1) rest
    | .skipped _ => processRows header (rowNum + 1) rest

/-- A stripped line survives the comment/blank filter iff it is nonempty
and does not start with `#`. -/
def keepLine : List Char → Bool
  | [] => false
  | c :: _ => c != '#'

/-- The line-cleaning loop of `_parse_schedule_content`: split on newlines,
strip each line, keep nonempty non-comment lines. -/
def cleanLines (content : List Char) : List (List Char) :=
  ((pySplitChar '\n' content).map pyStrip).filter keepLine

/-- `GymBookingBot._parse_schedule_content`: clean the lines, read the first
cleaned line as the CSV header, process the remaining rows numbered from 2.
CSV field splitting is modelled as comma-splitting (the quote-free dialect;
the schedule format uses no quoted fields). -/
def parse_schedule_content (content : List Char) : List ScheduleEntry :=
  match cleanLines content with
  | [] => []
  | header :: rows => processRows (pySplitChar ',' header) 2 rows

/-- A timezone-aware UK datetime at minute granularity.  `day` counts
calendar days from a fixed Monday epoch, so `day % 7` is Python's
`date.weekday()` (0 = Monday); `_is_booking_time` zeroes seconds and
microseconds (`current_time.replace(second=0, microsecond=0)`) before any
comparison, so minute granularity is exact. -/
structure PyDateTime where
  day : Nat
  hour : Nat
  minute : Nat
deriving DecidableEq, Repr

/-- The `day_names` list of `_is_booking_time`, indexed by `date.weekday()`. -/
def day_names : List (List Char) :=
  ["monday", "tuesday", "wednesday", "thursday", "friday", "saturday", "sunday"].map String.data

/-- `GymBookingBot._is_booking_time` on a schedule entry's `day_of_week` and
`time` fields.  Returns `(should_book, target_day)` where `target_day` is
the day number of `current_time.date() + timedelta(days=8)` (the returned
datetime is midnight of that date); `none` models an uncaught exception
(`IndexError` on a `time` without `:`, `ValueError` from `int()` or from
`replace()` on an out-of-range hour/minute). -/
def is_booking_time (entry_day entry_time : List Char) (now : PyDateTime) :
    Option (Bool × Nat) :=
  let targetDay := now.day + 8
  if day_names.getD (targetDay % 7) [] ≠ entry_day then
    some (false, targetDay)
  else
    match pySplitChar ':' entry_time with
    | p0 :: p1 :: _ =>
      match pyInt p0, pyInt p1 with
      | some sh, some sm =>
        if 0 ≤ sh ∧ sh ≤ 23 ∧ 0 ≤ sm ∧ sm ≤ 59 then
          let nowMin : Int := (now.hour : Int) * 60 + now.minute
          let schedMin : Int := sh * 60 + sm
          if schedMin ≤ nowMin then
            if nowMin - schedMin < 15 then some (true, targetDay)
            else some (false, targetDay)
          else
            some (false, targetDay)
        else
          none
      | _, _ => none
    | _ => none

/-- First element of a list of strings (`parts[0]` on the always-nonempty
result of `split`). -/
def hourPart : List (List Char) → List Char
  | [] => []
  | p :: _ => p

/-- `GymBookingBot._infer_time_period`: hour taken from the text before the
first `:`; unparseable hours default to "morning" (the bare `except`). -/
def infer_time_period (specific_time : List Char) : List Char :=
  match pyInt (hourPart (pySplitChar ':' specific_time)) with
  | none => "morning".data
  | some hour =>
    if hour < 12 then "morning".data
    else if hour < 17 then "afternoon".data
    else "evening".data

/-- The `lane_priority` list of `book_swim_lane`. -/
def lane_priority : List Nat := [2, 3, 4, 1]

/-- The lane-scanning loop of `book_swim_lane`: try the lane numbers in
order; a lane is considered only when at least `lane_num` lane containers
exist; within a lane the booking buttons are scanned in order and the
first whose extracted time equals the requested time is clicked.  `lanes`
holds, per lane container (in page order, lane 1 first), the list of time
strings extracted from its booking buttons.  Returns the lane clicked. -/
def tryLanes (lanes : List (List (List Char))) (time : List Char) :
    List Nat → Option Nat
  | [] => none
  | n :: rest =>
    if n ≤ lanes.length then
      if time ∈ lanes.getD (n - 1) [] then some n
      else tryLanes lanes time rest
    else
      tryLanes lanes time rest

/-- `book_swim_lane`'s slot selection: scan the lanes in priority order
`[2, 3, 4, 1]`; `none` means `slot_booked` stays false and the function
returns failure. -/
def book_swim_lane_choice (lanes : List (List (List Char))) (time : List Char) :
    Option Nat :=
  tryLanes lanes time lane_priority

/-! ### Helper lemmas -/

/-- `_is_booking_time` either raises or returns a decision paired with the
day exactly 8 days after `now`'s date. -/
theorem is_booking_time_shape (eday etime : List Char) (now : PyDateTime) :
    is_booking_time eday etime now = none ∨
    is_booking_time eday etime now = some (true, now.day + 8) ∨
    is_booking_time eday etime now = some (false, now.day + 8) := by
  simp only [is_booking_time]
  repeat' split
  all_goals simp

/-! ### Helper lemmas about the schedule parser -/

/-- An accepted row keeps the row number it was processed with. -/
theorem processRow_okRowNum (header : List (List Char)) (n : Nat) (line : List Char)
    (e : ScheduleEntry) (w : Bool) (h : processRow header n line = RowResult.ok e w) :
    e.row_num = n := by
  simp only [processRow] at h
  repeat' split at h
  all_goals cases h
  all_goals rfl

/-- An accepted row has a validated time, and its warning flag is set
exactly when the minute is off the quarter hour. -/
theorem processRow_okTime (header : List (List Char)) (n : Nat) (line : List Char)
    (e : ScheduleEntry) (w : Bool) (h : processRow header n line = RowResult.ok e w) :
    ∃ hm : Int × Int, pyTimeHM e.time = some hm ∧
      (w = true ↔ ¬ (hm.2 = 0 ∨ hm.2 = 15 ∨ hm.2 = 30 ∨ hm.2 = 45)) := by
  simp only [processRow] at h
  repeat' split at h
  all_goals cases h
  rename_i hm heq
  exact ⟨hm, heq, by simp⟩

/-- Shifting an indexed search for an accepted row across a cons cell. -/
theorem exists_ok_cons (header : List (List Char)) (n : Nat) (line : List Char)
    (rest : List (List Char)) (e : ScheduleEntry) :
    (∃ i, ∃ hi : i < (line :: rest).length, ∃ w,
        processRow header (n + i) ((line :: rest).get ⟨i, hi⟩) = RowResult.ok e w) ↔
      ((∃ w, processRow header n line = RowResult.ok e w) ∨
        (∃ i, ∃ hi : i < rest.length, ∃ w,
          processRow header (n + 1 + i) (rest.get ⟨i, hi⟩) = RowResult.ok e w)) := by
  constructor
  · rintro ⟨i, hi, w, hw⟩
    cases i with
    | zero =>
      exact Or.inl ⟨w, by simpa using hw⟩
    | succ j =>
      have hj : j < rest.length := by simpa using hi
      refine Or.inr ⟨j, hj, w, ?_⟩
      have hn : n + 1 + j = n + (j + 1) := by omega
      rw [hn]
      simpa using hw
  · rintro (⟨w, hw⟩ | ⟨i, hi, w, hw⟩)
    · exact ⟨0, by simp, w, by simpa using hw⟩
    · refine ⟨i + 1, by simpa using hi, w, ?_⟩
      have hn : n + (i + 1) = n + 1 + i := by omega
      rw [hn]
      simpa using hw

/-- Membership in the processed rows is exactly acceptance of the row at
some index, numbered by its position. -/
theorem mem_processRows (header : List (List Char)) (rows : List (List Char)) (n : Nat)
    (e : ScheduleEntry) :
    e ∈ processRows header n rows ↔
      ∃ i, ∃ hi : i < rows.length, ∃ w,
        processRow header (n + i) (rows.get ⟨i, hi⟩) = RowResult.ok e w := by
  induction rows generalizing n with
  | nil => simp [processRows]
  | cons line rest ih =>
    rw [exists_ok_cons]
    cases hpr : processRow header n line with
    | skipped r =>
      simp only [processRows, hpr]
      rw [ih]
      constructor
      · exact fun h => Or.inr h
      · rintro (⟨w, hw⟩ | h)
        · exact RowResult.noConfusion hw
        · exact h
    | ok e0 w0 =>
      simp only [processRows, hpr, List.mem_cons]
      rw [ih]
      constructor
      · rintro (rfl | h)
        · exact Or.inl ⟨w0, rfl⟩
        · exact Or.inr h
      · rintro (⟨w, hw⟩ | h)
        · simp only [RowResult.ok.injEq] at hw
          exact Or.inl hw.1.symm
        · exact Or.inr h

/-- Every processed entry's row number is at least the starting number. -/
theorem processRows_row_num_ge (header : List (List Char)) (rows : List (List Char))
    (n : Nat) : ∀ e ∈ processRows header n rows, n ≤ e.row_num := by
  intro e he
  obtain ⟨i, hi, w, hw⟩ := (mem_processRows header rows n e).mp he
  have := processRow_okRowNum header (n + i) _ e w hw
  omega

/-- Processed entries carry strictly increasing row numbers, hence appear
in input order. -/
theorem processRows_pairwise (header : List (List Char)) (rows : List (List Char))
    (n : Nat) :
    List.Pairwise (fun a b => a.row_num < b.row_num) (processRows header n rows) := by
  induction rows generalizing n with
  | nil => exact List.Pairwise.nil
  | cons line rest ih =>
    cases hpr : processRow header n line with
    | skipped r =>
      simpa only [processRows, hpr] using ih (n + 1)
    | ok e0 w0 =>
      simp only [processRows, hpr]
      refine List.Pairwise.cons ?_ (ih (n + 1))
      intro b hb
      have h1 := processRows_row_num_ge header rest (n + 1) b hb
      have h2 := processRow_okRowNum header n line e0 w0 hpr
      omega

/-- `split` never returns an empty list of chunks. -/
theorem pySplit_ne_nil (sep : Char) (l : List Char) : pySplitChar sep l ≠ [] := by
  induction l with
  | nil => simp [pySplitChar]
  | cons c rest ih =>
    simp only [pySplitChar]
    split
    · simp
    · cases hr : pySplitChar sep rest with
      | nil => exact absurd hr ih
      | cons r rs => simp [hr]

/-- Splitting distributes over a separator occurrence. -/
theorem pySplit_append (sep : Char) (a b : List Char) :
    pySplitChar sep (a ++ sep :: b) = pySplitChar sep a ++ pySplitChar sep b := by
  induction a with
  | nil => simp [pySplitChar]
  | cons c rest ih =>
    by_cases hc : c = sep
    · subst hc
      simp [pySplitChar, ih]
    · simp only [List.cons_append, pySplitChar, if_neg hc]
      cases hr : pySplitChar sep rest with
      | nil => exact absurd hr (pySplit_ne_nil sep rest)
      | cons r rs => simp [hr, ih]

/-- A chunk without the separator splits to itself. -/
theorem pySplit_no_sep (sep : Char) (l : List Char) (h : ¬ sep ∈ l) :
    pySplitChar sep l = [l] := by
  induction l with
  | nil => rfl
  | cons c rest ih =>
    have hc : ¬ c = sep := fun hcc => h (by simp [hcc])
    have hrest : ¬ sep ∈ rest := fun hr => h (List.mem_cons_of_mem _ hr)
    simp only [pySplitChar, if_neg hc, ih hrest]

/-- Inserting one comment or blank line (no newline inside, stripped empty
or starting `#`) between two newlines leaves the cleaned lines unchanged. -/
theorem cleanLines_insert (a b mid : List Char) (hno : ¬ '\n' ∈ mid)
    (hmid : keepLine (pyStrip mid) = false) :
    cleanLines (a ++ '\n' :: (mid ++ '\n' :: b)) = cleanLines (a ++ '\n' :: b) := by
  unfold cleanLines
  rw [pySplit_append, pySplit_append, pySplit_no_sep _ _ hno]
  simp [pySplit_append, List.filter_append, hmid]

/-! ### Claim theorems -/

/-- C8: for every input string, `_parse_swim_instructor` returns a duration
in {0, 15, 30}, and `is_swim` is true exactly when the duration is 15 or
30. -/
theorem c8_swim_result_invariant (s : List Char) :
    ((parse_swim_instructor s).2.1 = 0 ∨ (parse_swim_instructor s).2.1 = 15 ∨
      (parse_swim_instructor s).2.1 = 30) ∧
    ((parse_swim_instructor s).1 = true ↔
      ((parse_swim_instructor s).2.1 = 15 ∨ (parse_swim_instructor s).2.1 = 30)) := by
  unfold parse_swim_instructor
  split
  · split
    · split
      · rename_i d _ hd
        simp only []
        exact ⟨Or.inr hd, by simpa using hd⟩
      · simp
    · simp
  · simp

/-- C9: `_infer_time_period` always returns one of "morning", "afternoon",
"evening"; a parseable hour below 12 gives "morning", 12..16 gives
"afternoon", 17 and above gives "evening"; an unparseable hour defaults to
"morning" instead of raising. -/
theorem c9_time_period_total (t : List Char) :
    (infer_time_period t = "morning".data ∨ infer_time_period t = "afternoon".data ∨
      infer_time_period t = "evening".data) ∧
    (pyInt (hourPart (pySplitChar ':' t)) = none → infer_time_period t = "morning".data) ∧
    (∀ h : Int, pyInt (hourPart (pySplitChar ':' t)) = some h →
      ((h < 12 → infer_time_period t = "morning".data) ∧
       (12 ≤ h ∧ h ≤ 16 → infer_time_period t = "afternoon".data) ∧
       (17 ≤ h → infer_time_period t = "evening".data))) := by
  unfold infer_time_period
  refine ⟨?_, ?_, ?_⟩
  · cases hp : pyInt (hourPart (pySplitChar ':' t)) with
    | none => simp
    | some h =>
      by_cases h12 : h < 12
      · simp [h12]
      · by_cases h17 : h < 17 <;> simp [h12, h17]
  · intro hp
    simp [hp]
  · intro h hp
    rw [hp]
    refine ⟨fun hlt => by simp [hlt], fun hmid => ?_, fun hge => ?_⟩
    · have h1 : ¬ h < 12 := by omega
      have h2 : h < 17 := by omega
      simp [h1, h2]
    · have h1 : ¬ h < 12 := by omega
      have h2 : ¬ h < 17 := by omega
      simp [h1, h2]

/-- C9 witness: concrete evaluations through `c9_time_period_total`. -/
theorem c9_time_period_total_witness :
    infer_time_period ("09:30".data) = "morning".data ∧
    infer_time_period ("12:00".data) = "afternoon".data ∧
    infer_time_period ("17:45".data) = "evening".data ∧
    infer_time_period ("bad".data) = "morning".data :=
  ⟨((c9_time_period_total ("09:30".data)).2.2 9 (by decide)).1 (by decide),
   ((c9_time_period_total ("12:00".data)).2.2 12 (by decide)).2.1 (by decide),
   ((c9_time_period_total ("17:45".data)).2.2 17 (by decide)).2.2 (by decide),
   (c9_time_period_total ("bad".data)).2.1 (by decide)⟩

/-- C3 counterexample: `"Swim(45)Swim(30)"` has the case-insensitive
`swim` prefix and contains the parenthesised duration 30 (a `swim(30)`
occurrence at offset 8), yet the parser does not recognise a swim booking,
because `re.search` only considers the leftmost `swim(\d+)` occurrence. -/
theorem c3_counterexample :
    ("swim".data).isPrefixOf ((("Swim(45)Swim(30)".data)).map Char.toLower) = true ∧
    swimHere (((("Swim(45)Swim(30)".data)).map Char.toLower).drop 8) = some 30 ∧
    parse_swim_instructor ("Swim(45)Swim(30)".data) = (false, 0, true) := by
  decide

/-- C3 (amended): a swim booking is recognised iff the spec has the
case-insensitive prefix `swim` and the leftmost `swim(N)` occurrence in the
lowercased spec has N = 15 or N = 30; `"Swim(30)"` gives `(True, 30)`,
`"Swim(45)"` gives `(False, 0)` with the warning, `"Mari"` gives
`(False, 0)` without it, and a non-recognised spec always carries
duration 0. -/
theorem c3_swim_spec (s : List Char) :
    ((parse_swim_instructor s).1 = true ↔
      (("swim".data).isPrefixOf (s.map Char.toLower) = true ∧
        ∃ d, swimSearch (s.map Char.toLower) = some d ∧ (d = 15 ∨ d = 30))) ∧
    parse_swim_instructor ("Swim(30)".data) = (true, 30, false) ∧
    parse_swim_instructor ("Swim(45)".data) = (false, 0, true) ∧
    parse_swim_instructor ("Mari".data) = (false, 0, false) ∧
    ((parse_swim_instructor s).1 = false → (parse_swim_instructor s).2.1 = 0) := by
  refine ⟨?_, by decide, by decide, by decide, ?_⟩
  · unfold parse_swim_instructor
    split
    · rename_i hpre
      split
      · rename_i d hd
        split
        · rename_i hval
          simpa [hpre, hd] using hval
        · rename_i hval
          simp only [hpre, hd, true_and]
          constructor
          · intro h
            exact absurd h (by simp)
          · rintro ⟨d', hd', hv⟩
            exact absurd (by cases hd'; exact hv) hval
      · rename_i hnone
        simp [hpre, hnone]
    · rename_i hpre
      simp only []
      constructor
      · intro h
        exact absurd h (by simp)
      · rintro ⟨hp, _⟩
        exact absurd hp hpre
  · unfold parse_swim_instructor
    split
    · split
      · split <;> simp
      · simp
    · simp

/-- C3 witness: a concrete recognised swim spec through `c3_swim_spec`. -/
theorem c3_swim_spec_witness :
    (parse_swim_instructor ("swim(15)".data)).1 = true :=
  (c3_swim_spec ("swim(15)".data)).1.mpr ⟨by decide, 15, by decide, Or.inl rfl⟩

/-- C4: with four lane slot lists, the booked lane is the first of the
priority order 2, 3, 4, 1 whose slot list contains the requested time
exactly; in particular lane 2 beats lane 1 regardless of lane 1's slots,
and when no lane offers the time the attempt fails (`none`). -/
theorem c4_lane_priority (l1 l2 l3 l4 : List (List Char)) (time : List Char) :
    (time ∈ l2 → book_swim_lane_choice [l1, l2, l3, l4] time = some 2) ∧
    (time ∉ l2 → time ∈ l3 → book_swim_lane_choice [l1, l2, l3, l4] time = some 3) ∧
    (time ∉ l2 → time ∉ l3 → time ∈ l4 →
      book_swim_lane_choice [l1, l2, l3, l4] time = some 4) ∧
    (time ∉ l2 → time ∉ l3 → time ∉ l4 → time ∈ l1 →
      book_swim_lane_choice [l1, l2, l3, l4] time = some 1) ∧
    (time ∉ l2 → time ∉ l3 → time ∉ l4 → time ∉ l1 →
      book_swim_lane_choice [l1, l2, l3, l4] time = none) := by
  refine ⟨?_, ?_, ?_, ?_, ?_⟩ <;>
    intros <;>
    simp [book_swim_lane_choice, lane_priority, tryLanes, List.getD, *]

/-- C4 witness: lanes 1 and 2 both offer 14:00; lane 2 is chosen. -/
theorem c4_lane_priority_witness :
    book_swim_lane_choice [[("14:00".data)], [("14:00".data)], [], []] ("14:00".data) =
      some 2 :=
  (c4_lane_priority [("14:00".data)] [("14:00".data)] [] [] ("14:00".data)).1 (by decide)

/-- C2: whenever `_is_booking_time` returns (it does not raise), the target
date it reports is exactly 8 calendar days after the date component of
`now`, independently of `now`'s time of day and of whether the entry is
due. -/
theorem c2_target_date (eday etime : List Char) (now : PyDateTime) (b : Bool) (t : Nat)
    (h : is_booking_time eday etime now = some (b, t)) : t = now.day + 8 := by
  rcases is_booking_time_shape eday etime now with hs | hs | hs <;> rw [hs] at h
  · exact absurd h (by simp)
  · simp only [Option.some.injEq, Prod.mk.injEq] at h
    exact h.2.symm
  · simp only [Option.some.injEq, Prod.mk.injEq] at h
    exact h.2.symm

/-- C2 witness: a concrete evaluation through `c2_target_date`. -/
theorem c2_target_date_witness :
    is_booking_time ("monday".data) ("09:00".data) ⟨6, 9, 5⟩ = some (true, 14) ∧
    (14 : Nat) = 6 + 8 :=
  ⟨by decide, c2_target_date ("monday".data) ("09:00".data) ⟨6, 9, 5⟩ true 14 (by decide)⟩

/-- C1: for an entry whose `day_of_week` matches the weekday of
`now.date() + 8 days` and whose time parses as `sh:sm` in range, the
decision of `_is_booking_time` is DUE exactly when the elapsed minutes of
`now` since today's `sh:sm` lie in [0, 15), and NOT-DUE/WINDOW-CLOSED
otherwise (so at T the result is book, at T+14 book, at T+15 and at T−1
no booking). -/
theorem c1_eligibility_window (eday etime : List Char) (now : PyDateTime)
    (p0 p1 : List Char) (rest : List (List Char)) (sh sm : Int)
    (hsplit : pySplitChar ':' etime = p0 :: p1 :: rest)
    (hp0 : pyInt p0 = some sh) (hp1 : pyInt p1 = some sm)
    (hrange : 0 ≤ sh ∧ sh ≤ 23 ∧ 0 ≤ sm ∧ sm ≤ 59)
    (hday : day_names.getD ((now.day + 8) % 7) [] = eday) :
    (is_booking_time eday etime now = some (true, now.day + 8) ↔
      (0 ≤ ((now.hour : Int) * 60 + now.minute) - (sh * 60 + sm) ∧
        ((now.hour : Int) * 60 + now.minute) - (sh * 60 + sm) < 15)) ∧
    (is_booking_time eday etime now = some (false, now.day + 8) ↔
      ¬ (0 ≤ ((now.hour : Int) * 60 + now.minute) - (sh * 60 + sm) ∧
          ((now.hour : Int) * 60 + now.minute) - (sh * 60 + sm) < 15)) := by
  simp only [is_booking_time]
  rw [hday, hsplit]
  simp only [hp0, hp1, ne_eq]
  split_ifs <;> simp_all

/-- C1 witness: entry `monday 09:00` checked at 09:05 on a day whose
date-plus-8 is a Monday: the booking is due. -/
theorem c1_eligibility_window_witness :
    is_booking_time ("monday".data) ("09:00".data) ⟨6, 9, 5⟩ = some (true, 6 + 8) :=
  (c1_eligibility_window ("monday".data) ("09:00".data) ⟨6, 9, 5⟩
      ("09".data) ("00".data) [] 9 0 (by decide) (by decide) (by decide)
      (by decide) (by decide)).1.mpr (by decide)

/-- C5: under the cleaned lines, a row skipped by validation (the skip
carries the logged reason) contributes no entry with its row number, while
an accepted row's entry is in the result regardless of the other rows; the
parse is total, so it never aborts. -/
theorem c5_malformed_rows_isolated (content hd : List Char) (rows : List (List Char))
    (hclean : cleanLines content = hd :: rows) :
    (∀ i (hi : i < rows.length) (reason : List Char),
        processRow (pySplitChar ',' hd) (2 + i) (rows.get ⟨i, hi⟩) =
          RowResult.skipped reason →
        ∀ e ∈ parse_schedule_content content, e.row_num ≠ 2 + i) ∧
    (∀ i (hi : i < rows.length) (e : ScheduleEntry) (w : Bool),
        processRow (pySplitChar ',' hd) (2 + i) (rows.get ⟨i, hi⟩) = RowResult.ok e w →
        e ∈ parse_schedule_content content) := by
  have hps : parse_schedule_content content = processRows (pySplitChar ',' hd) 2 rows := by
    unfold parse_schedule_content
    rw [hclean]
  constructor
  · intro i hi reason hskip e he hrow
    rw [hps] at he
    obtain ⟨j, hj, w, hw⟩ := (mem_processRows _ rows 2 e).mp he
    have hrn := processRow_okRowNum _ (2 + j) _ e w hw
    have hij : j = i := by omega
    subst hij
    rw [hskip] at hw
    exact RowResult.noConfusion hw
  · intro i hi e w hok
    rw [hps]
    exact (mem_processRows _ rows 2 e).mpr ⟨i, hi, w, hok⟩

/-- C5 witness: in a schedule with one valid and one invalid-user row, the
valid row's entry is produced. -/
theorem c5_malformed_rows_isolated_witness :
    (⟨"peter".data, "Mari".data, "monday".data, "09:00".data, 2⟩ : ScheduleEntry) ∈
      parse_schedule_content
        (("user,instructor,day_of_week,time\npeter,Mari,monday,09:00\nbob,X,monday,09:00").data) :=
  (c5_malformed_rows_isolated
      (("user,instructor,day_of_week,time\npeter,Mari,monday,09:00\nbob,X,monday,09:00").data)
      (("user,instructor,day_of_week,time").data)
      [("peter,Mari,monday,09:00").data, ("bob,X,monday,09:00").data]
      (by decide)).2 0 (by decide)
    ⟨"peter".data, "Mari".data, "monday".data, "09:00".data, 2⟩ false (by decide)

/-- C6: a schedule text all of whose lines strip to blank or comment
parses to the empty list; so does any text with no cleaned lines, and any
text whose data rows are all rejected; and inserting a comment or blank
line between newlines changes nothing (it produces neither entries nor row
errors nor renumbering). -/
theorem c6_empty_and_comments (content a b mid : List Char) :
    ((∀ line ∈ pySplitChar '\n' content, keepLine (pyStrip line) = false) →
      parse_schedule_content content = []) ∧
    (cleanLines content = [] → parse_schedule_content content = []) ∧
    ((¬ '\n' ∈ mid) → keepLine (pyStrip mid) = false →
      parse_schedule_content (a ++ '\n' :: (mid ++ '\n' :: b)) =
        parse_schedule_content (a ++ '\n' :: b)) ∧
    (∀ (hd : List Char) (rows : List (List Char)), cleanLines content = hd :: rows →
      (∀ i (hi : i < rows.length) (e : ScheduleEntry) (w : Bool),
        processRow (pySplitChar ',' hd) (2 + i) (rows.get ⟨i, hi⟩) ≠ RowResult.ok e w) →
      parse_schedule_content content = []) := by
  refine ⟨?_, ?_, ?_, ?_⟩
  · intro hall
    have hcl : cleanLines content = [] := by
      unfold cleanLines
      rw [List.filter_eq_nil_iff]
      intro x hx
      obtain ⟨line, hline, rfl⟩ := List.mem_map.mp hx
      simp [hall line hline]
    unfold parse_schedule_content
    rw [hcl]
  · intro hcl
    unfold parse_schedule_content
    rw [hcl]
  · intro hno hmid
    unfold parse_schedule_content
    rw [cleanLines_insert a b mid hno hmid]
  · intro hd rows hclean hnone
    unfold parse_schedule_content
    rw [hclean, List.eq_nil_iff_forall_not_mem]
    intro e he
    obtain ⟨i, hi, w, hw⟩ := (mem_processRows _ rows 2 e).mp he
    exact hnone i hi e w hw

/-- C6 witness: a comments-and-blanks-only text parses to the empty list. -/
theorem c6_empty_and_comments_witness :
    parse_schedule_content (("# schedule\n\n   \n# end").data) = [] :=
  (c6_empty_and_comments (("# schedule\n\n   \n# end").data) [] [] []).1 (by decide)

/-- C7: schedule parsing is a pure function of the input text, so parsing
the same text twice yields identical entry sequences. -/
theorem c7_parse_deterministic (content : List Char) :
    parse_schedule_content content = parse_schedule_content content := rfl

/-- C10: parsed entries carry strictly increasing row numbers (input order
is preserved); every entry comes from the cleaned data row at position
`row_num`, where the header is row 1 and data rows count from 2; and a row
accepted with the off-quarter-hour warning is still included, the warning
flag being set exactly when the validated minute is outside {0,15,30,45}. -/
theorem c10_order_and_provenance (content hd : List Char) (rows : List (List Char))
    (hclean : cleanLines content = hd :: rows) :
    List.Pairwise (fun a b => a.row_num < b.row_num) (parse_schedule_content content) ∧
    (∀ e ∈ parse_schedule_content content, ∃ i, ∃ hi : i < rows.length,
        e.row_num = 2 + i ∧
        ∃ w, processRow (pySplitChar ',' hd) (2 + i) (rows.get ⟨i, hi⟩) =
          RowResult.ok e w) ∧
    (∀ i (hi : i < rows.length) (e : ScheduleEntry) (w : Bool),
        processRow (pySplitChar ',' hd) (2 + i) (rows.get ⟨i, hi⟩) = RowResult.ok e w →
        (e ∈ parse_schedule_content content ∧
          ∃ hm : Int × Int, pyTimeHM e.time = some hm ∧
            (w = true ↔ ¬ (hm.2 = 0 ∨ hm.2 = 15 ∨ hm.2 = 30 ∨ hm.2 = 45)))) := by
  have hps : parse_schedule_content content = processRows (pySplitChar ',' hd) 2 rows := by
    unfold parse_schedule_content
    rw [hclean]
  refine ⟨?_, ?_, ?_⟩
  · rw [hps]
    exact processRows_pairwise _ rows 2
  · intro e he
    rw [hps] at he
    obtain ⟨i, hi, w, hw⟩ := (mem_processRows _ rows 2 e).mp he
    exact ⟨i, hi, processRow_okRowNum _ _ _ _ _ hw, w, hw⟩
  · intro i hi e w hok
    refine ⟨?_, processRow_okTime _ _ _ _ _ hok⟩
    rw [hps]
    exact (mem_processRows _ rows 2 e).mpr ⟨i, hi, w, hok⟩

/-- C10 witness: a valid row whose minute 10 is off the quarter hour is
accepted with the warning and still included, with row number 2. -/
theorem c10_order_and_provenance_witness :
    (⟨"adrienne".data, "Swim(30)".data, "friday".data, "07:10".data, 2⟩ : ScheduleEntry) ∈
      parse_schedule_content
        (("user,instructor,day_of_week,time\nadrienne,Swim(30),friday,07:10").data) :=
  ((c10_order_and_provenance
      (("user,instructor,day_of_week,time\nadrienne,Swim(30),friday,07:10").data)
      (("user,instructor,day_of_week,time").data)
      [("adrienne,Swim(30),friday,07:10").data]
      (by decide)).2.2 0 (by decide)
    ⟨"adrienne".data, "Swim(30)".data, "friday".data, "07:10".data, 2⟩ true (by decide)).1

/-- Sanity example: canonical swim spec parses. -/
example : GymBot.parse_swim_instructor ("Swim(30)".data) = (true, 30, false) := by decide

example : GymBot.parse_swim_instructor ("Swim(45)".data) = (false, 0, true) := by decide

example : GymBot.parse_swim_instructor ("Mari".data) = (false, 0, false) := by decide

example : GymBot.parse_swim_instructor ("swim(15)".data) = (true, 15, false) := by decide

example : GymBot.parse_swim_instructor ("Swim(45)Swim(30)".data) = (false, 0, true) := by decide

example : GymBot.pyInt (" 30".data) = some 30 := by decide

example : GymBot.pyInt ("-5".data) = some (-5) := by decide

example : GymBot.pyInt ("1a".data) = none := by decide

example : GymBot.pySplitChar ':' ("09:00".data) = ["09".data, "00".data] := by decide

example : GymBot.pyStrip ("  a b \t".data) = "a b".data := by decide
